import Mathlib

/-!
Verification development for the scatter-plot brush/selection engine.

The definitions below are shallow embeddings of the TypeScript source:
pixel and data coordinates are exact rationals, D3 linear scales are
affine maps given by their domain/range endpoints, and the stateful
brush wiring (opacity attributes, observer notifications, the
programmatic-selection flag) is explicit state passing over a
`ChartState` record.
-/

/-- A data point (`types.ts`): four required numeric fields. -/
structure Point where
  x : ℚ
  y : ℚ
  size : ℚ
  color : ℚ
  deriving DecidableEq

/-- A cached mark position (`circlePositions` entry in `createBrush`):
the `cx`/`cy` pixel attributes of one rendered circle. -/
structure MarkPos where
  cx : ℚ
  cy : ℚ
  deriving DecidableEq

/-- A data-space selection record (`types.ts` `BrushSelection`):
`{x0, y0, x1, y1}` in data coordinates. -/
structure BrushSelection where
  x0 : ℚ
  y0 : ℚ
  x1 : ℚ
  y1 : ℚ
  deriving DecidableEq

/-- A pixel-space rectangle `[[x0, y0], [x1, y1]]` as handed to or by the
D3 brush (corners as given, not necessarily ordered). -/
structure PixelRect where
  x0 : ℚ
  y0 : ℚ
  x1 : ℚ
  y1 : ℚ
  deriving DecidableEq

/-- A `d3.scaleLinear()` with domain `[d0, d1]` and range `[r0, r1]`. -/
structure LinearScale where
  d0 : ℚ
  d1 : ℚ
  r0 : ℚ
  r1 : ℚ
  deriving DecidableEq

/-- Forward evaluation of a D3 linear scale: normalize into the domain,
then interpolate into the range (`xScale(x0)` in `setBrushSelection`). -/
def LinearScale.apply (s : LinearScale) (t : ℚ) : ℚ :=
  s.r0 + (t - s.d0) / (s.d1 - s.d0) * (s.r1 - s.r0)

/-- Inversion of a D3 linear scale (`xScale.invert(svgX0)` in
`calculateSelection`). -/
def LinearScale.invert (s : LinearScale) (p : ℚ) : ℚ :=
  s.d0 + (p - s.r0) / (s.r1 - s.r0) * (s.d1 - s.d0)

/-- The opacity attribute value written to selected marks, and to all
marks when the selection is cleared (`"0.7"` in the source). -/
def opacitySelected : String := "0.7"

/-- The opacity attribute value written to unselected marks while a
selection is active (`"0.15"` in the source). -/
def opacityDimmed : String := "0.15"

/-- The inclusive inside test used by `updateCircleOpacities` and
`calculateSelection`: `svgX0 <= cx && cx <= svgX1 && svgY0 <= cy && cy <= svgY1`,
with the rectangle's corners taken exactly as given. -/
def insideRectB (r : PixelRect) (m : MarkPos) : Bool :=
  decide (r.x0 ≤ m.cx) && decide (m.cx ≤ r.x1) &&
    decide (r.y0 ≤ m.cy) && decide (m.cy ≤ r.y1)

/-- `isPointInSelection` (`utils.ts`): `cx >= x0 && cx <= x1 && cy >= y0 && cy <= y1`
against a selection's corners as given. -/
def isPointInSelection (cx cy : ℚ) (selection : BrushSelection) : Bool :=
  decide (cx ≥ selection.x0) && decide (cx ≤ selection.x1) &&
    decide (cy ≥ selection.y0) && decide (cy ≤ selection.y1)

/-- The mark-opacity pass of `createBrush.updateCircleOpacities`: with an
active pixel rectangle every mark gets `"0.7"` or `"0.15"` by the inside
test; with no rectangle every mark gets `"0.7"`. -/
def updateCircleOpacities (positions : List MarkPos) :
    Option PixelRect → List String
  | some r => positions.map fun m => if insideRectB r m then opacitySelected else opacityDimmed
  | none => positions.map fun _ => opacitySelected

/-- The point-gathering loop of `calculateSelection`: walk the cached
positions in index order and push `data[i]` whenever position `i` passes
the inside test (the source assumes the two lists have equal length). -/
def calculateSelectionPoints : List MarkPos → List Point → PixelRect → List Point
  | m :: ms, p :: ps, r =>
      if insideRectB r m then p :: calculateSelectionPoints ms ps r
      else calculateSelectionPoints ms ps r
  | _, _, _ => []

/-- `calculateSelection` (`createBrush` helper): on a null selection,
`(null, [])`; otherwise the selected points plus the pixel rectangle's
corners inverted through the two scales. -/
def calculateSelection (positions : List MarkPos) (data : List Point)
    (xScale yScale : LinearScale) :
    Option PixelRect → Option BrushSelection × List Point
  | none => (none, [])
  | some r =>
      (some ⟨xScale.invert r.x0, yScale.invert r.y0,
             xScale.invert r.x1, yScale.invert r.y1⟩,
       calculateSelectionPoints positions data r)

/-- The pixel rectangle `setBrushSelection` hands to `brush.move`: the
two corners forward-mapped through the scales, then min/max-normalized
per axis. -/
def forwardPixelRect (xs ys : LinearScale) (s : BrushSelection) : PixelRect :=
  ⟨min (xs.apply s.x0) (xs.apply s.x1), min (ys.apply s.y0) (ys.apply s.y1),
   max (xs.apply s.x0) (xs.apply s.x1), max (ys.apply s.y0) (ys.apply s.y1)⟩

/-- The per-chart environment captured by `createBrush` and stored in
`brushRef`: the cached circle positions, the bound data array, and the
two scales extracted from the plot. -/
structure BrushEnv where
  positions : List MarkPos
  data : List Point
  xScale : LinearScale
  yScale : LinearScale

/-- The observable chart state the brush logic mutates: the D3 brush's
stored region, the circles' opacity attributes, the displayed selected
count, the list of observer (`onSelectionChange`) invocations, and the
`isApplyingProgrammaticRef` flag. -/
structure ChartState where
  brushRegion : Option PixelRect
  opacities : List String
  selectedCount : Nat
  notifications : List (List Point × Option BrushSelection)
  flag : Bool
  deriving DecidableEq

/-- The brush `end` handler together with the component's `onBrush`
callback: refresh opacities from the current region, recompute the
selection, update the count, and notify the observer unless the
programmatic flag is set. -/
def endEvent (env : BrushEnv) (st : ChartState) : ChartState :=
  let ops := updateCircleOpacities env.positions st.brushRegion
  let res := calculateSelection env.positions env.data env.xScale env.yScale st.brushRegion
  { st with
    opacities := ops
    selectedCount := res.2.length
    notifications := st.notifications ++ if st.flag then [] else [(res.2, res.1)] }

/-- `brush.move`: store the new region; when D3 dispatches the gesture
events synchronously (`fires`), run the `end` handler. -/
def brushMove (env : BrushEnv) (sel : Option PixelRect) (fires : Bool)
    (st : ChartState) : ChartState :=
  let st1 := { st with brushRegion := sel }
  if fires then endEvent env st1 else st1

/-- `setBrushSelection` (`brush.ts`): a null selection moves the brush to
null and manually resets every opacity; a non-null selection requires
both scales (otherwise the call is a logged no-op), forward-maps and
min/max-normalizes the corners, moves the brush there, and manually
rewrites the opacities from the normalized rectangle. -/
def setBrushSelection (env : BrushEnv) (selection : Option BrushSelection)
    (xs? ys? : Option LinearScale) (fires : Bool) (st : ChartState) : ChartState :=
  match selection with
  | none =>
      let st1 := brushMove env none fires st
      { st1 with opacities := env.positions.map fun _ => opacitySelected }
  | some s =>
      match xs?, ys? with
      | some xs, some ys =>
          let px := forwardPixelRect xs ys s
          let st1 := brushMove env (some px) fires st
          { st1 with
            opacities := env.positions.map fun m =>
              if insideRectB px m then opacitySelected else opacityDimmed }
      | _, _ => st

/-- `clearBrushSelection` (`brush.ts`): move the brush to null and
manually reset every circle's opacity to `"0.7"`. -/
def clearBrushSelection (env : BrushEnv) (fires : Bool) (st : ChartState) : ChartState :=
  let st1 := brushMove env none fires st
  { st1 with opacities := env.positions.map fun _ => opacitySelected }

/-- The Escape-key handler of the `ScatterPlot` component: clear the
brush, zero the displayed count, and invoke the observer with `([], null)`. -/
def escapeKeyClear (env : BrushEnv) (fires : Bool) (st : ChartState) : ChartState :=
  let st1 := clearBrushSelection env fires st
  { st1 with
    selectedCount := 0
    notifications := st1.notifications ++ [([], none)] }

/-- The controlled-selection effect of the `ScatterPlot` component: set
the `isApplyingProgrammaticRef` flag, drive `setBrushSelection` with the
stored scales, then clear the flag. -/
def applyControlledSelection (env : BrushEnv) (selection : Option BrushSelection)
    (fires : Bool) (st : ChartState) : ChartState :=
  let st1 := setBrushSelection env selection (some env.xScale) (some env.yScale) fires
    { st with flag := true }
  { st1 with flag := false }

/-- `extractScalesFromPlotElement` (`plot.ts`): with the renderer's
native scales `nx`/`ny` available and at least one rendered circle,
take the pixel extent of the circles, invert its endpoints through the
native scales, and build one linear scale per axis; the y scale's pixel
range is passed reversed as `[maxCy, minCy]`. -/
def extractScalesFromPlotElement (nx ny : LinearScale) (positions : List MarkPos) :
    Option (LinearScale × LinearScale) :=
  match positions with
  | [] => none
  | m :: ms =>
      let minCx := ms.foldl (fun a p => min a p.cx) m.cx
      let maxCx := ms.foldl (fun a p => max a p.cx) m.cx
      let minCy := ms.foldl (fun a p => min a p.cy) m.cy
      let maxCy := ms.foldl (fun a p => max a p.cy) m.cy
      some (⟨nx.invert minCx, nx.invert maxCx, minCx, maxCx⟩,
            ⟨ny.invert maxCy, ny.invert minCy, maxCy, minCy⟩)

mutual
/-- A rendered DOM subtree: a tag that is or is not an `svg` element,
its pixel width and height, and its children. -/
inductive DomNode where
  | node (isSvg : Bool) (w h : ℚ) (children : DomForest)
/-- A sibling list of rendered DOM subtrees. -/
inductive DomForest where
  | nil
  | cons (d : DomNode) (rest : DomForest)
end

/-- Whether the element's tag name is `svg`. -/
def DomNode.isSvg : DomNode → Bool
  | .node b _ _ _ => b

/-- The element's pixel area `width * height` as compared by
`findMainSvg`. -/
def DomNode.area : DomNode → ℚ
  | .node _ w h _ => w * h

mutual
/-- All `svg` elements of a subtree in document (pre-order) order,
including the subtree's root. -/
def domSvgs : DomNode → List DomNode
  | .node b w h cs => (if b then [DomNode.node b w h cs] else []) ++ forestSvgs cs
/-- All `svg` elements of a sibling forest in document order. -/
def forestSvgs : DomForest → List DomNode
  | .nil => []
  | .cons d rest => domSvgs d ++ forestSvgs rest
end

/-- `plotElement.querySelectorAll("svg")`: the `svg` descendants of the
root, in document order (the root itself excluded). -/
def descSvgs : DomNode → List DomNode
  | .node _ _ _ cs => forestSvgs cs

/-- One step of the `reduce` in `findMainSvg`:
`currentSize > largestSize ? current : largest`. -/
def pickLarger (largest current : DomNode) : DomNode :=
  if largest.area < current.area then current else largest

/-- `findMainSvg` (`plot.ts`): if the root element is itself an `svg`,
return it; otherwise reduce over all `svg` descendants, keeping the one
with the strictly larger area (`reduce` is seeded with `allSvgs[0]`, so
an empty descendant list yields no result). -/
def findMainSvg (root : DomNode) : Option DomNode :=
  if root.isSvg then some root
  else
    match descSvgs root with
    | [] => none
    | s :: rest => some (List.foldl pickLarger s (s :: rest))

/-- Modelled from the spec: "enumerate all nested drawable surfaces and
select the one with the largest pixel area (`width × height`); ties
broken by first-encountered order" — the leftmost element of maximal
area. -/
def firstLargest : List DomNode → Option DomNode
  | [] => none
  | a :: t =>
      match firstLargest t with
      | none => some a
      | some b => if a.area < b.area then some b else some a

/-- Modelled from the spec: the selection computation "reports as
selected exactly the points `P[i]` whose cached position `(cx, cy)`
satisfies the inclusive bounds `min(x0,x1) <= cx <= max(x0,x1)` and
`min(y0,y1) <= cy <= max(y0,y1)`", in original index order. -/
def specSelectedPoints : List MarkPos → List Point → PixelRect → List Point
  | m :: ms, p :: ps, r =>
      if min r.x0 r.x1 ≤ m.cx ∧ m.cx ≤ max r.x0 r.x1 ∧
          min r.y0 r.y1 ≤ m.cy ∧ m.cy ≤ max r.y0 r.y1 then
        p :: specSelectedPoints ms ps r
      else specSelectedPoints ms ps r
  | _, _, _ => []

namespace DataGen

/-- One step of `d3.randomLcg`: `state = mul * state + inc | 0` with
`mul = 0x19660D` and `inc = 0x3C6EF35F`; tracked as the unsigned residue
modulo `2^32` (the signed wrap of the source agrees modulo `2^32`, and
every use reads the state through `>>> 0`). -/
def lcgNext (s : Nat) : Nat :=
  (1664525 * s + 1013904223) % 4294967296

/-- One iteration of the polar-method loop in `d3.randomNormal`: draw two
uniforms `u = state >>> 0` scaled by `2^-32`, form `x = u1 * 2 - 1` and
`y = u2 * 2 - 1`, and return them with the advanced state. -/
def drawPair (s : Nat) : (ℚ × ℚ) × Nat :=
  let s1 := lcgNext s
  let u1 : ℚ := (s1 : ℚ) / 4294967296
  let s2 := lcgNext s1
  let u2 : ℚ := (s2 : ℚ) / 4294967296
  ((u1 * 2 - 1, u2 * 2 - 1), s2)

/-- The rejection loop of `d3.randomNormal`: redraw `(x, y)` while
`r = x*x + y*y` is zero or exceeds one; returns the accepted `(r, y)`
and the advanced state. The source's `do/while` has no bound; the
embedding carries explicit fuel and fails if it is exhausted. -/
def rejectLoop : Nat → Nat → Option ((ℚ × ℚ) × Nat)
  | 0, _ => none
  | fuel + 1, s =>
      let pr := drawPair s
      let r := pr.1.1 * pr.1.1 + pr.1.2 * pr.1.2
      if r ≠ 0 ∧ r ≤ 1 then some ((r, pr.1.2), pr.2) else rejectLoop fuel pr.2

/-- One value drawn from `random(mu, sigma)()`. The returned number in
the source is `mu + sigma * Math.sqrt(-2 * Math.log(r) / r) * y`, a
fixed real-valued function of the exact rationals recorded here; the
transcendental evaluation itself is kept symbolic as this record. -/
structure NormalDraw where
  mu : ℚ
  sigma : ℚ
  r : ℚ
  y : ℚ
  deriving DecidableEq

/-- Draw one normal variate's exact pre-transform data. -/
def sampleNormal (mu sigma : ℚ) (fuel s : Nat) : Option (NormalDraw × Nat) :=
  (rejectLoop fuel s).map fun v => (⟨mu, sigma, v.1.1, v.1.2⟩, v.2)

/-- A generated data point (`utils.ts` `generateRandomData` body):
`x, y ~ random(50, 15)`, `size ~ random(30, 10)`, `color ~ random(10, 50)`,
each drawn from a fresh `randomNormal` generator sharing the one LCG. -/
structure Point where
  x : NormalDraw
  y : NormalDraw
  size : NormalDraw
  color : NormalDraw
  deriving DecidableEq

/-- The generation loop: each iteration draws the four fields in order,
threading the single LCG state. -/
def genGo (fuel : Nat) : Nat → Nat → Option (List Point)
  | 0, _ => some []
  | n + 1, s =>
      match sampleNormal 50 15 fuel s with
      | none => none
      | some px =>
        match sampleNormal 50 15 fuel px.2 with
        | none => none
        | some py =>
          match sampleNormal 30 10 fuel py.2 with
          | none => none
          | some psize =>
            match sampleNormal 10 50 fuel psize.2 with
            | none => none
            | some pcolor =>
              match genGo fuel n pcolor.2 with
              | none => none
              | some rest => some (⟨px.1, py.1, psize.1, pcolor.1⟩ :: rest)

/-- `generateRandomData(n, seed)` (`utils.ts`, defaults `n = 600`,
`seed = 42`): seed the LCG from the integer `seed` argument and draw
`n` points. A fuel of 1000 bounds each rejection loop. -/
def generateRandomData (n seed : Nat) : Option (List Point) :=
  genGo 1000 n seed

end DataGen

/-- C6: For every non-null data-space selection, if either the x scale or
the y scale is not supplied, `setBrushSelection` is a no-op: it returns
without moving the brush region and without changing any mark's opacity
— the state is unchanged on this error path. -/
theorem c6_missing_scale_noop (env : BrushEnv) (s : BrushSelection)
    (xs? ys? : Option LinearScale) (fires : Bool) (st : ChartState) :
    setBrushSelection env (some s) none ys? fires st = st ∧
    setBrushSelection env (some s) xs? none fires st = st := by
  constructor
  · cases ys? <;> rfl
  · cases xs? <;> rfl

/-- C7: `setBrushSelection` applies the min/max-normalized pixel
rectangle, so the applied region and the resulting state are invariant
under swapping `x0` with `x1` and/or `y0` with `y1` in the
caller-supplied data rectangle. -/
theorem c7_corner_order_invariance (env : BrushEnv) (xs ys : LinearScale)
    (s : BrushSelection) (fires : Bool) (st : ChartState) :
    forwardPixelRect xs ys ⟨s.x1, s.y0, s.x0, s.y1⟩ = forwardPixelRect xs ys s ∧
    forwardPixelRect xs ys ⟨s.x0, s.y1, s.x1, s.y0⟩ = forwardPixelRect xs ys s ∧
    forwardPixelRect xs ys ⟨s.x1, s.y1, s.x0, s.y0⟩ = forwardPixelRect xs ys s ∧
    setBrushSelection env (some ⟨s.x1, s.y0, s.x0, s.y1⟩) (some xs) (some ys) fires st =
      setBrushSelection env (some s) (some xs) (some ys) fires st ∧
    setBrushSelection env (some ⟨s.x0, s.y1, s.x1, s.y0⟩) (some xs) (some ys) fires st =
      setBrushSelection env (some s) (some xs) (some ys) fires st ∧
    setBrushSelection env (some ⟨s.x1, s.y1, s.x0, s.y0⟩) (some xs) (some ys) fires st =
      setBrushSelection env (some s) (some xs) (some ys) fires st ∧
    (setBrushSelection env (some s) (some xs) (some ys) fires st).brushRegion =
      some (forwardPixelRect xs ys s) := by
  have h1 : forwardPixelRect xs ys ⟨s.x1, s.y0, s.x0, s.y1⟩ = forwardPixelRect xs ys s := by
    simp [forwardPixelRect, min_comm, max_comm]
  have h2 : forwardPixelRect xs ys ⟨s.x0, s.y1, s.x1, s.y0⟩ = forwardPixelRect xs ys s := by
    simp [forwardPixelRect, min_comm, max_comm]
  have h3 : forwardPixelRect xs ys ⟨s.x1, s.y1, s.x0, s.y0⟩ = forwardPixelRect xs ys s := by
    simp [forwardPixelRect, min_comm, max_comm]
  refine ⟨h1, h2, h3, ?_, ?_, ?_, ?_⟩
  · simp [setBrushSelection, h1]
  · simp [setBrushSelection, h2]
  · simp [setBrushSelection, h3]
  · cases fires <;> simp [setBrushSelection, brushMove, endEvent]

/-- C3: While the `isApplyingProgrammaticRef` flag is set — the whole
synchronous duration of a programmatic `setBrushSelection` driven by a
controlled-selection change — the observer is never invoked, even though
the brush region and mark opacities are updated; applying the same
controlled value twice yields the same final opacity state and no
notification on the second application either. -/
theorem c3_flag_suppresses_observer (env : BrushEnv) (r : BrushSelection)
    (sel : Option BrushSelection) (fires : Bool) (st : ChartState) :
    (applyControlledSelection env sel fires st).notifications = st.notifications ∧
    (applyControlledSelection env (some r) fires st).brushRegion =
      some (forwardPixelRect env.xScale env.yScale r) ∧
    (applyControlledSelection env (some r) fires st).opacities =
      updateCircleOpacities env.positions (some (forwardPixelRect env.xScale env.yScale r)) ∧
    (applyControlledSelection env sel fires
        (applyControlledSelection env sel fires st)).opacities =
      (applyControlledSelection env sel fires st).opacities ∧
    (applyControlledSelection env sel fires
        (applyControlledSelection env sel fires st)).notifications =
      (applyControlledSelection env sel fires st).notifications ∧
    (applyControlledSelection env sel fires st).flag = false := by
  refine ⟨?_, ?_, ?_, ?_, ?_, ?_⟩ <;>
    cases sel <;> cases fires <;>
      simp [applyControlledSelection, setBrushSelection, brushMove, endEvent,
        updateCircleOpacities]

/-- C4 (counterexample): the claim asserts every clear path invokes the
observer with `([], null)`. On the code's only `setBrushSelection` call
site — the controlled-selection effect — the programmatic flag is set,
so clearing via a null controlled selection resets opacities and the
region but produces no observer invocation at all. -/
theorem c4_controlled_clear_counterexample :
    (applyControlledSelection ⟨[⟨0, 0⟩], [⟨1, 2, 3, 4⟩], ⟨0, 100, 0, 100⟩, ⟨0, 100, 100, 0⟩⟩
        none true ⟨some ⟨0, 0, 5, 5⟩, [opacityDimmed], 1, [], false⟩).notifications = [] ∧
    (applyControlledSelection ⟨[⟨0, 0⟩], [⟨1, 2, 3, 4⟩], ⟨0, 100, 0, 100⟩, ⟨0, 100, 100, 0⟩⟩
        none true ⟨some ⟨0, 0, 5, 5⟩, [opacityDimmed], 1, [], false⟩).opacities =
      [opacitySelected] := ⟨rfl, rfl⟩

/-- C4 (amended): every clear path — Escape key, `clearBrushSelection`,
`setBrushSelection(null)` — leaves a null brush region and every mark at
full opacity `"0.7"` regardless of prior state; the Escape handler
explicitly invokes the observer with `([], null)`, while
`clearBrushSelection` and `setBrushSelection(null)` notify `([], null)`
only through the brush-move end event, when it fires with the
programmatic flag unset; the controlled clear (flag set) never
notifies. -/
theorem c4_clear_behavior (env : BrushEnv) (xs? ys? : Option LinearScale)
    (fires : Bool) (st : ChartState) :
    ((escapeKeyClear env fires st).opacities.all fun o => o == opacitySelected) = true ∧
    (escapeKeyClear env fires st).selectedCount = 0 ∧
    (escapeKeyClear env fires st).brushRegion = none ∧
    (escapeKeyClear env fires st).notifications =
      st.notifications ++ (if fires && !st.flag then [([], none)] else []) ++ [([], none)] ∧
    ((clearBrushSelection env fires st).opacities.all fun o => o == opacitySelected) = true ∧
    (clearBrushSelection env fires st).brushRegion = none ∧
    (clearBrushSelection env fires st).notifications =
      st.notifications ++ (if fires && !st.flag then [([], none)] else []) ∧
    ((setBrushSelection env none xs? ys? fires st).opacities.all
      fun o => o == opacitySelected) = true ∧
    (setBrushSelection env none xs? ys? fires st).brushRegion = none ∧
    (setBrushSelection env none xs? ys? fires st).notifications =
      st.notifications ++ (if fires && !st.flag then [([], none)] else []) ∧
    (applyControlledSelection env none fires st).notifications = st.notifications ∧
    ((applyControlledSelection env none fires st).opacities.all
      fun o => o == opacitySelected) = true ∧
    (applyControlledSelection env none fires st).brushRegion = none := by
  refine ⟨?_, ?_, ?_, ?_, ?_, ?_, ?_, ?_, ?_, ?_, ?_, ?_, ?_⟩ <;>
    cases fires <;> cases hf : st.flag <;>
      simp [escapeKeyClear, clearBrushSelection, setBrushSelection, brushMove, endEvent,
        applyControlledSelection, calculateSelection, updateCircleOpacities, hf,
        List.all_eq_true]

/-- C9 helper: the points paired with a `"0.7"` opacity produced by the
active-rectangle opacity map are exactly the points collected by the
selection loop, in order. -/
theorem opacities_filter_eq_selection (r : PixelRect) :
    ∀ (ps : List MarkPos) (data : List Point),
      (((ps.map fun m => if insideRectB r m then opacitySelected else opacityDimmed).zip
            data).filterMap fun od => if od.1 == opacitySelected then some od.2 else none) =
        calculateSelectionPoints ps data r := by
  intro ps
  induction ps with
  | nil => intro data; simp [calculateSelectionPoints]
  | cons m ms ih =>
    intro data
    cases data with
    | nil => simp [calculateSelectionPoints]
    | cons p rest =>
      by_cases hb : insideRectB r m = true
      · simp [calculateSelectionPoints, hb]
        simpa using ih rest
      · simp only [Bool.not_eq_true] at hb
        simp [calculateSelectionPoints, hb,
          show opacityDimmed ≠ opacitySelected from by decide]
        simpa using ih rest

/-- C9 (amended): for every non-null rectangle the visual highlighting
and the reported selection agree — the marks assigned the selected
opacity `"0.7"` by `updateCircleOpacities` correspond exactly, index for
index, to the points `calculateSelection` reports, both computed from
the same inside test over the same cached positions. (For a null
rectangle the agreement fails: all marks get `"0.7"` but the reported
list is empty — see the counterexample.) -/
theorem c9_opacity_selection_agree (ps : List MarkPos) (data : List Point) (r : PixelRect) :
    (((updateCircleOpacities ps (some r)).zip data).filterMap
      fun od => if od.1 == opacitySelected then some od.2 else none) =
      calculateSelectionPoints ps data r := by
  simpa [updateCircleOpacities] using opacities_filter_eq_selection r ps data

/-- C9 (counterexample): with a null selection `updateCircleOpacities`
writes the selected value `"0.7"` to every mark, yet `calculateSelection`
reports no selected points — the claimed "`0.7` iff reported selected"
equivalence fails at the null rectangle with one data point. -/
theorem c9_null_counterexample :
    updateCircleOpacities [⟨0, 0⟩] none = [opacitySelected] ∧
    (calculateSelection [⟨0, 0⟩] [⟨1, 2, 3, 4⟩] ⟨0, 1, 0, 1⟩ ⟨0, 1, 0, 1⟩ none).2 =
      [] := ⟨rfl, rfl⟩

/-- C1 (counterexample): `calculateSelection` and `isPointInSelection`
test against the corners exactly as given, with no min/max
normalization. For the unordered pixel rectangle `[[10,10],[0,0]]` and a
cached position `(5,5)`, the claimed normalized-bounds membership holds
(`min ≤ 5 ≤ max` on both axes) yet the code selects nothing. -/
theorem c1_normalization_counterexample :
    calculateSelectionPoints [⟨5, 5⟩] [⟨1, 2, 3, 4⟩] ⟨10, 10, 0, 0⟩ = [] ∧
    specSelectedPoints [⟨5, 5⟩] [⟨1, 2, 3, 4⟩] ⟨10, 10, 0, 0⟩ = [⟨1, 2, 3, 4⟩] ∧
    isPointInSelection 5 5 ⟨10, 10, 0, 0⟩ = false := by
  refine ⟨?_, ?_, ?_⟩ <;> with_unfolding_all decide

/-- C1 (amended): the selection computation tests each cached position
against the rectangle's corners exactly as supplied (`x0 ≤ cx ≤ x1` and
`y0 ≤ cy ≤ y1`, inclusive); whenever the supplied corners are ordered
(`x0 ≤ x1`, `y0 ≤ y1`) this coincides with the claimed
min/max-normalized membership, and the reported list preserves the
original index order of the points; `isPointInSelection` implements the
same as-given inclusive test. -/
theorem c1_inclusive_bounds (ps : List MarkPos) (data : List Point) (r : PixelRect)
    (hx : r.x0 ≤ r.x1) (hy : r.y0 ≤ r.y1) :
    calculateSelectionPoints ps data r = specSelectedPoints ps data r ∧
    ∀ m : MarkPos, isPointInSelection m.cx m.cy ⟨r.x0, r.y0, r.x1, r.y1⟩ = insideRectB r m := by
  constructor
  · induction ps generalizing data with
    | nil => cases data <;> simp [calculateSelectionPoints, specSelectedPoints]
    | cons m ms ih =>
      cases data with
      | nil => simp [calculateSelectionPoints, specSelectedPoints]
      | cons p rest =>
        have hcond : (insideRectB r m = true) ↔
            (min r.x0 r.x1 ≤ m.cx ∧ m.cx ≤ max r.x0 r.x1 ∧
              min r.y0 r.y1 ≤ m.cy ∧ m.cy ≤ max r.y0 r.y1) := by
          simp [insideRectB, min_eq_left hx, max_eq_right hx, min_eq_left hy,
            max_eq_right hy, and_assoc]
        simp only [calculateSelectionPoints, specSelectedPoints]
        by_cases hb : insideRectB r m = true
        · rw [if_pos hb, if_pos (hcond.mp hb), ih rest]
        · rw [if_neg hb, if_neg fun hc => hb (hcond.mpr hc), ih rest]
  · intro m
    simp [isPointInSelection, insideRectB, ge_iff_le]

/-- C1 (witness): the amended equivalence evaluated at one ordered
rectangle and one cached position. -/
theorem c1_inclusive_bounds_witness :
    calculateSelectionPoints [⟨5, 5⟩] [⟨1, 2, 3, 4⟩] ⟨0, 0, 10, 10⟩ =
      specSelectedPoints [⟨5, 5⟩] [⟨1, 2, 3, 4⟩] ⟨0, 0, 10, 10⟩ :=
  (c1_inclusive_bounds [⟨5, 5⟩] [⟨1, 2, 3, 4⟩] ⟨0, 0, 10, 10⟩
    (by with_unfolding_all decide) (by with_unfolding_all decide)).1

/-- A non-degenerate D3 linear scale inverts its own forward evaluation
exactly over the rationals. -/
theorem LinearScale.invert_apply (sc : LinearScale) (hd : sc.d1 - sc.d0 ≠ 0)
    (hr : sc.r1 - sc.r0 ≠ 0) (t : ℚ) : sc.invert (sc.apply t) = t := by
  unfold LinearScale.apply LinearScale.invert
  field_simp
  ring

/-- C2 (counterexample): with the scales extracted by
`extractScalesFromPlotElement` (reversed y range), forward-mapping the
data rectangle `{x0:20, y0:30, x1:40, y1:60}` as `setBrushSelection`
does and inverting back as `calculateSelection` does yields
`{x0:20, y0:60, x1:40, y1:30}` — the y corners come back swapped, so the
round trip does not reproduce the original rectangle exactly. -/
theorem c2_roundtrip_counterexample :
    extractScalesFromPlotElement ⟨0, 100, 0, 100⟩ ⟨0, 100, 100, 0⟩ [⟨10, 90⟩, ⟨90, 10⟩] =
      some (⟨10, 90, 10, 90⟩, ⟨10, 90, 90, 10⟩) ∧
    (calculateSelection [⟨10, 90⟩, ⟨90, 10⟩] [] ⟨10, 90, 10, 90⟩ ⟨10, 90, 90, 10⟩
        (some (forwardPixelRect ⟨10, 90, 10, 90⟩ ⟨10, 90, 90, 10⟩ ⟨20, 30, 40, 60⟩))).1 =
      some ⟨20, 60, 40, 30⟩ ∧
    some (BrushSelection.mk 20 60 40 30) ≠ some (BrushSelection.mk 20 30 40 60) := by
  refine ⟨?_, ?_, ?_⟩ <;> with_unfolding_all decide

/-- C2 (amended): for the linear scales constructed by
`extractScalesFromPlotElement`, each non-degenerate, the forward-then-
invert round trip of `setBrushSelection` and `calculateSelection`
reproduces a data rectangle exactly (over the rationals) whenever the
rectangle's corners are ordered in pixel space (first corner mapping to
the smaller pixel coordinate on each axis); in general the round trip
returns the same geometric rectangle with the per-axis corners possibly
swapped. -/
theorem c2_roundtrip_pixel_ordered (nx ny xs ys : LinearScale) (ps : List MarkPos)
    (data : List Point) (s : BrushSelection)
    (_hex : extractScalesFromPlotElement nx ny ps = some (xs, ys))
    (hdx : xs.d1 - xs.d0 ≠ 0) (hrx : xs.r1 - xs.r0 ≠ 0)
    (hdy : ys.d1 - ys.d0 ≠ 0) (hry : ys.r1 - ys.r0 ≠ 0)
    (hpx : xs.apply s.x0 ≤ xs.apply s.x1) (hpy : ys.apply s.y0 ≤ ys.apply s.y1) :
    (calculateSelection ps data xs ys (some (forwardPixelRect xs ys s))).1 = some s := by
  obtain ⟨a, b, c, d⟩ := s
  simp only [calculateSelection, forwardPixelRect] at *
  rw [min_eq_left hpx, max_eq_right hpx, min_eq_left hpy, max_eq_right hpy,
    LinearScale.invert_apply xs hdx hrx, LinearScale.invert_apply xs hdx hrx,
    LinearScale.invert_apply ys hdy hry, LinearScale.invert_apply ys hdy hry]

/-- C2 (witness): the amended round trip evaluated on concrete extracted
scales and a pixel-ordered rectangle. -/
theorem c2_roundtrip_witness :
    (calculateSelection [⟨10, 90⟩, ⟨90, 10⟩] [] ⟨10, 90, 10, 90⟩ ⟨10, 90, 90, 10⟩
        (some (forwardPixelRect ⟨10, 90, 10, 90⟩ ⟨10, 90, 90, 10⟩ ⟨20, 60, 40, 30⟩))).1 =
      some ⟨20, 60, 40, 30⟩ :=
  c2_roundtrip_pixel_ordered ⟨0, 100, 0, 100⟩ ⟨0, 100, 100, 0⟩ ⟨10, 90, 10, 90⟩
    ⟨10, 90, 90, 10⟩ [⟨10, 90⟩, ⟨90, 10⟩] [] ⟨20, 60, 40, 30⟩
    (by with_unfolding_all decide) (by with_unfolding_all decide)
    (by with_unfolding_all decide) (by with_unfolding_all decide)
    (by with_unfolding_all decide) (by with_unfolding_all decide)
    (by with_unfolding_all decide)

/-- Folding `min` over a list never exceeds the start value. -/
theorem foldl_min_le (f : MarkPos → ℚ) :
    ∀ (l : List MarkPos) (a : ℚ), l.foldl (fun b p => min b (f p)) a ≤ a := by
  intro l
  induction l with
  | nil => intro a; exact le_refl a
  | cons p t ih => intro a; exact (ih (min a (f p))).trans (min_le_left _ _)

/-- Folding `max` over a list never drops below the start value. -/
theorem le_foldl_max (f : MarkPos → ℚ) :
    ∀ (l : List MarkPos) (a : ℚ), a ≤ l.foldl (fun b p => max b (f p)) a := by
  intro l
  induction l with
  | nil => intro a; exact le_refl a
  | cons p t ih => intro a; exact (le_max_left _ _).trans (ih (max a (f p)))

/-- The forward evaluation of a linear scale at its first domain
endpoint is its first range endpoint. -/
theorem LinearScale.apply_left (sc : LinearScale) : sc.apply sc.d0 = sc.r0 := by
  unfold LinearScale.apply
  simp

/-- For a non-degenerate domain, the forward evaluation at the second
domain endpoint is the second range endpoint. -/
theorem LinearScale.apply_right (sc : LinearScale) (h : sc.d1 - sc.d0 ≠ 0) :
    sc.apply sc.d1 = sc.r1 := by
  unfold LinearScale.apply
  rw [div_self h]
  ring

/-- C8: the y scale built by `extractScalesFromPlotElement` has domain
`[invert(maxCy), invert(minCy)]` and reversed pixel range
`[maxCy, minCy]`, opposite in orientation to the x scale's increasing
pixel range, so that (for an increasing data domain) forward evaluation
sends the smaller domain value to the larger pixel y and the larger
domain value to the smaller pixel y. -/
theorem c8_reversed_y_range (nx ny xs ys : LinearScale) (ps : List MarkPos)
    (hex : extractScalesFromPlotElement nx ny ps = some (xs, ys))
    (hdy : ys.d0 < ys.d1) :
    ys.d0 = ny.invert ys.r0 ∧ ys.d1 = ny.invert ys.r1 ∧
    xs.r0 ≤ xs.r1 ∧ ys.r1 ≤ ys.r0 ∧
    ys.apply ys.d0 = ys.r0 ∧ ys.apply ys.d1 = ys.r1 := by
  cases ps with
  | nil => simp [extractScalesFromPlotElement] at hex
  | cons m ms =>
    simp only [extractScalesFromPlotElement, Option.some_inj, Prod.mk.injEq] at hex
    obtain ⟨hxs, hys⟩ := hex
    subst hxs
    subst hys
    refine ⟨rfl, rfl, ?_, ?_, ?_, ?_⟩
    · exact (foldl_min_le (fun p => p.cx) ms m.cx).trans (le_foldl_max (fun p => p.cx) ms m.cx)
    · exact (foldl_min_le (fun p => p.cy) ms m.cy).trans (le_foldl_max (fun p => p.cy) ms m.cy)
    · exact LinearScale.apply_left _
    · exact LinearScale.apply_right _ (sub_ne_zero.mpr (ne_of_gt hdy))

/-- C8 (witness): the reversed-range properties evaluated on concrete
extracted scales. -/
theorem c8_reversed_y_range_witness :
    (LinearScale.mk 10 90 90 10).d0 =
      (LinearScale.mk 0 100 100 0).invert (LinearScale.mk 10 90 90 10).r0 ∧
    (LinearScale.mk 10 90 90 10).d1 =
      (LinearScale.mk 0 100 100 0).invert (LinearScale.mk 10 90 90 10).r1 ∧
    (LinearScale.mk 10 90 10 90).r0 ≤ (LinearScale.mk 10 90 10 90).r1 ∧
    (LinearScale.mk 10 90 90 10).r1 ≤ (LinearScale.mk 10 90 90 10).r0 ∧
    (LinearScale.mk 10 90 90 10).apply (LinearScale.mk 10 90 90 10).d0 =
      (LinearScale.mk 10 90 90 10).r0 ∧
    (LinearScale.mk 10 90 90 10).apply (LinearScale.mk 10 90 90 10).d1 =
      (LinearScale.mk 10 90 90 10).r1 :=
  c8_reversed_y_range ⟨0, 100, 0, 100⟩ ⟨0, 100, 100, 0⟩ ⟨10, 90, 10, 90⟩
    ⟨10, 90, 90, 10⟩ [⟨10, 90⟩, ⟨90, 10⟩]
    (by with_unfolding_all decide) (by with_unfolding_all decide)

/-- The strictly-greater-replaces fold of `findMainSvg` computes the
leftmost element of maximal area. -/
theorem foldl_eq_firstLargest :
    ∀ (l : List DomNode) (a : DomNode),
      some (List.foldl pickLarger a l) = firstLargest (a :: l) := by
  intro l
  induction l with
  | nil => intro a; rfl
  | cons c t ih =>
    intro a
    rw [List.foldl_cons, ih (pickLarger a c)]
    rcases ht : firstLargest t with _ | d
    · simp only [firstLargest, ht, pickLarger]
      by_cases hac : a.area < c.area
      · simp [hac]
      · simp [hac]
    · simp only [firstLargest, ht]
      by_cases hcd : c.area < d.area
      · rw [if_pos hcd]
        by_cases hac : a.area < c.area
        · have hpl : pickLarger a c = c := if_pos hac
          rw [hpl, if_pos hcd]
          simp [hac.trans hcd]
        · have hpl : pickLarger a c = a := if_neg hac
          rw [hpl]
      · rw [if_neg hcd]
        by_cases hac : a.area < c.area
        · have hpl : pickLarger a c = c := if_pos hac
          rw [hpl, if_neg hcd]
          simp [hac]
        · have hpl : pickLarger a c = a := if_neg hac
          have had : ¬a.area < d.area := fun hlt =>
            hac (hlt.trans_le (le_of_not_lt hcd))
          rw [hpl, if_neg had]
          simp [hac]

/-- C5: `findMainSvg` returns the root itself when the root is an `svg`
element, and otherwise returns the first-encountered largest-area `svg`
among the nested drawable surfaces (the leftmost maximum in document
order, ties broken in favor of the earlier surface). -/
theorem c5_find_main_svg (root : DomNode) :
    findMainSvg root = if root.isSvg then some root else firstLargest (descSvgs root) := by
  unfold findMainSvg
  by_cases hb : root.isSvg = true
  · simp [hb]
  · simp only [Bool.not_eq_true] at hb
    simp only [hb, Bool.false_eq_true, if_false]
    cases hd : descSvgs root with
    | nil => rfl
    | cons s rest =>
      have hss : pickLarger s s = s := by
        rw [pickLarger, if_neg (lt_irrefl _)]
      show some (List.foldl pickLarger s (s :: rest)) = firstLargest (s :: rest)
      rw [List.foldl_cons, hss, foldl_eq_firstLargest rest s]

/-- Every successful run of the generation loop returns exactly as many
points as requested. -/
theorem DataGen.genGo_length (fuel : Nat) :
    ∀ (n s : Nat) (l : List DataGen.Point),
      DataGen.genGo fuel n s = some l → l.length = n := by
  intro n
  induction n with
  | zero =>
    intro s l h
    simp only [DataGen.genGo, Option.some_inj] at h
    rw [← h]
    rfl
  | succ k ih =>
    intro s l h
    simp only [DataGen.genGo] at h
    rcases hpx : DataGen.sampleNormal 50 15 fuel s with _ | px
    · simp [hpx] at h
    simp only [hpx] at h
    rcases hpy : DataGen.sampleNormal 50 15 fuel px.2 with _ | py
    · simp [hpy] at h
    simp only [hpy] at h
    rcases hps : DataGen.sampleNormal 30 10 fuel py.2 with _ | psize
    · simp [hps] at h
    simp only [hps] at h
    rcases hpc : DataGen.sampleNormal 10 50 fuel psize.2 with _ | pcolor
    · simp [hpc] at h
    simp only [hpc] at h
    rcases hrest : DataGen.genGo fuel k pcolor.2 with _ | rest
    · simp [hrest] at h
    simp only [hrest, Option.some_inj] at h
    rw [← h]
    simp [ih _ rest hrest]

/-- C10: `generateRandomData` is a deterministic function of `(n, seed)`
— its only randomness source is the LCG seeded from the `seed` argument
— and every successful run returns a list of exactly `n` points; equal
arguments yield element-wise identical lists. -/
theorem c10_generate_deterministic_length (n seed : Nat)
    (h : (DataGen.generateRandomData n seed).isSome = true) :
    Option.map List.length (DataGen.generateRandomData n seed) = some n ∧
    ∀ m t : Nat, m = n → t = seed →
      DataGen.generateRandomData m t = DataGen.generateRandomData n seed := by
  constructor
  · obtain ⟨l, hl⟩ := Option.isSome_iff_exists.mp h
    rw [hl]
    exact congrArg some (DataGen.genGo_length 1000 n seed l hl)
  · intro m t hm ht
    rw [hm, ht]

set_option maxRecDepth 40000 in
/-- C10 (witness): fifty points generated from seed 42, counted. -/
theorem c10_generate_witness :
    Option.map List.length (DataGen.generateRandomData 50 42) = some 50 :=
  (c10_generate_deterministic_length 50 42 (by with_unfolding_all decide)).1
